import Mathlib

/-!
Verification of the coffeeShop backend (src/backend/src/api.py) against its
natural-language specification.  The route handlers, the error handlers and
the auth error renderer are embedded from the source file; the ORM model
(models.py) and the token verifier (auth/auth.py) are not part of the
source tree, so they are modelled from the specification where noted.
-/

namespace CoffeeShop

/-- Left brace character, written via its code point. -/
def lbrace : Char := Char.ofNat 123

/-- Right brace character, written via its code point. -/
def rbrace : Char := Char.ofNat 125

/-- JSON values as produced and consumed by the Python json library on this
code path.  Numbers are restricted to integers, which is the only numeric
shape the data model uses (ingredient quantities are integral parts). -/
inductive Json where
  | null
  | bool (b : Bool)
  | int (n : Int)
  | str (s : String)
  | arr (elems : List Json)
  | obj (fields : List (String × Json))

/-- Lower-case hexadecimal digit for a value below 16. -/
def hexDigit (n : Nat) : Char :=
  if n < 10 then Char.ofNat (48 + n) else Char.ofNat (97 + n - 10)

/-- Escaping of a single character inside a JSON string literal, following
the json library: quote and backslash are backslash-escaped, the five named
control characters use their short escapes, other control characters use a
four-digit unicode escape, and all other characters stand for themselves. -/
def escapeChar (c : Char) : List Char :=
  if c = '"' then ['\\', '"']
  else if c = '\\' then ['\\', '\\']
  else if c = Char.ofNat 8 then ['\\', 'b']
  else if c = Char.ofNat 9 then ['\\', 't']
  else if c = Char.ofNat 10 then ['\\', 'n']
  else if c = Char.ofNat 12 then ['\\', 'f']
  else if c = Char.ofNat 13 then ['\\', 'r']
  else if c.toNat < 32 then
    ['\\', 'u', '0', '0', hexDigit (c.toNat / 16), hexDigit (c.toNat % 16)]
  else [c]

/-- Escape every character of a string body. -/
def escapeChars : List Char → List Char
  | [] => []
  | c :: cs => escapeChar c ++ escapeChars cs

/-- A JSON string literal: quote, escaped body, quote. -/
def renderStr (s : String) : List Char :=
  '"' :: escapeChars s.data ++ ['"']

/-- Decimal digits of a natural number, most significant first. -/
def natChars (n : Nat) : List Char :=
  if n < 10 then [Nat.digitChar n]
  else natChars (n / 10) ++ [Nat.digitChar (n % 10)]
decreasing_by exact Nat.div_lt_self (by omega) (by omega)

/-- Decimal rendering of an integer. -/
def intChars : Int → List Char
  | .ofNat n => natChars n
  | .negSucc n => '-' :: natChars (n + 1)

mutual
/-- Rendering of a JSON value to text, following json.dumps with its default
separators (comma-space between items, colon-space after keys). -/
def renderJson : Json → List Char
  | .null => "null".data
  | .bool b => if b then "true".data else "false".data
  | .int n => intChars n
  | .str s => renderStr s
  | .arr es => '[' :: renderElems es ++ [']']
  | .obj fs => lbrace :: renderFields fs ++ [rbrace]

/-- Rendering of the comma-separated elements of a JSON array. -/
def renderElems : List Json → List Char
  | [] => []
  | [x] => renderJson x
  | x :: y :: xs => renderJson x ++ ',' :: ' ' :: renderElems (y :: xs)

/-- Rendering of the comma-separated fields of a JSON object. -/
def renderFields : List (String × Json) → List Char
  | [] => []
  | [(k, v)] => renderStr k ++ ':' :: ' ' :: renderJson v
  | (k, v) :: f :: fs =>
      renderStr k ++ ':' :: ' ' :: renderJson v ++ ',' :: ' ' :: renderFields (f :: fs)
end

/-- json.dumps on the modelled JSON values. -/
def dumps (j : Json) : String := String.mk (renderJson j)

/-- JSON insignificant whitespace. -/
def isWs (c : Char) : Bool :=
  c.toNat = 32 || c.toNat = 9 || c.toNat = 10 || c.toNat = 13

/-- Drop leading JSON whitespace. -/
def skipWs : List Char → List Char
  | [] => []
  | c :: cs => if isWs c then skipWs cs else c :: cs

/-- Value of a hexadecimal digit character, if it is one. -/
def hexVal (c : Char) : Option Nat :=
  if 48 ≤ c.toNat ∧ c.toNat ≤ 57 then some (c.toNat - 48)
  else if 97 ≤ c.toNat ∧ c.toNat ≤ 102 then some (c.toNat - 97 + 10)
  else if 65 ≤ c.toNat ∧ c.toNat ≤ 70 then some (c.toNat - 65 + 10)
  else none

/-- Body of a JSON string literal after the opening quote: unescapes until
the closing quote, returning the decoded characters and the remainder. -/
def parseStringBody (cs : List Char) : Option (List Char × List Char) :=
  match cs with
  | [] => none
  | c :: cs1 =>
    if c = '"' then some ([], cs1)
    else if c = '\\' then
      match cs1 with
      | [] => none
      | e :: cs2 =>
        if e = 'u' then
          match cs2 with
          | h1 :: h2 :: h3 :: h4 :: cs3 =>
            match hexVal h1, hexVal h2, hexVal h3, hexVal h4 with
            | some v1, some v2, some v3, some v4 =>
              let n := ((v1 * 16 + v2) * 16 + v3) * 16 + v4
              (parseStringBody cs3).map fun p => (Char.ofNat n :: p.1, p.2)
            | _, _, _, _ => none
          | _ => none
        else
          let dec : Option Char :=
            if e = '"' then some '"'
            else if e = '\\' then some '\\'
            else if e = '/' then some '/'
            else if e = 'b' then some (Char.ofNat 8)
            else if e = 't' then some (Char.ofNat 9)
            else if e = 'n' then some (Char.ofNat 10)
            else if e = 'f' then some (Char.ofNat 12)
            else if e = 'r' then some (Char.ofNat 13)
            else none
          match dec with
          | none => none
          | some d => (parseStringBody cs2).map fun p => (d :: p.1, p.2)
    else
      (parseStringBody cs1).map fun p => (c :: p.1, p.2)
termination_by cs.length
decreasing_by all_goals simp_wf <;> omega

/-- Decimal digit test on the code point. -/
def isDig (c : Char) : Bool := 48 ≤ c.toNat && c.toNat ≤ 57

/-- Accumulating decimal reader: consumes a maximal run of digits. -/
def parseDigitsAux (acc : Nat) : List Char → Nat × List Char
  | [] => (acc, [])
  | c :: cs =>
    if isDig c then parseDigitsAux (acc * 10 + (c.toNat - 48)) cs
    else (acc, c :: cs)

/-- Whether a character list starts with a decimal digit. -/
def headIsDigit : List Char → Bool
  | c :: _ => isDig c
  | [] => false

/-- An optionally negated decimal integer. -/
def parseNumber (cs : List Char) : Option (Int × List Char) :=
  match cs with
  | [] => none
  | c :: cs1 =>
    if c = '-' then
      if headIsDigit cs1 then
        let p := parseDigitsAux 0 cs1
        some (-(p.1 : Int), p.2)
      else none
    else if isDig c then
      let p := parseDigitsAux 0 (c :: cs1)
      some ((p.1 : Int), p.2)
    else none

/-- Fuel-indexed JSON readers modelling json.loads, built in one
structural recursion on the fuel: the value reader dispatches on the first
significant character; the element reader consumes one or more
comma-separated array elements up to the closing bracket; the field reader
consumes one or more comma-separated object fields up to the closing
brace.  The fuel only bounds nesting and list length; the entry point
passes more fuel than any input of that length can use. -/
def parsers : Nat →
    ((List Char → Option (Json × List Char))
      × (List Char → Option (List Json × List Char))
      × (List Char → Option (List (String × Json) × List Char)))
  | 0 => (fun _ => none, fun _ => none, fun _ => none)
  | fuel + 1 =>
    let pv := (parsers fuel).1
    let pe := (parsers fuel).2.1
    let pf := (parsers fuel).2.2
    (fun cs =>
      match cs with
      | [] => none
      | c :: cs1 =>
        if c = '"' then
          (parseStringBody cs1).map fun p => (.str (String.mk p.1), p.2)
        else if c = '[' then
          match skipWs cs1 with
          | ']' :: r => some (.arr [], r)
          | cs2 => (pe cs2).map fun p => (.arr p.1, p.2)
        else if c = lbrace then
          match skipWs cs1 with
          | d :: r =>
            if d = rbrace then some (.obj [], r)
            else (pf (d :: r)).map fun p => (.obj p.1, p.2)
          | [] => none
        else if c = 't' then
          match cs1 with
          | 'r' :: 'u' :: 'e' :: r => some (.bool true, r)
          | _ => none
        else if c = 'f' then
          match cs1 with
          | 'a' :: 'l' :: 's' :: 'e' :: r => some (.bool false, r)
          | _ => none
        else if c = 'n' then
          match cs1 with
          | 'u' :: 'l' :: 'l' :: r => some (.null, r)
          | _ => none
        else
          (parseNumber cs).map fun p => (.int p.1, p.2),
     fun cs =>
      match pv cs with
      | none => none
      | some (v, r) =>
        match skipWs r with
        | ',' :: r2 => (pe (skipWs r2)).map fun p => (v :: p.1, p.2)
        | ']' :: r2 => some ([v], r2)
        | _ => none,
     fun cs =>
      match cs with
      | '"' :: cs1 =>
        match parseStringBody cs1 with
        | none => none
        | some (k, r) =>
          match skipWs r with
          | ':' :: r2 =>
            match pv (skipWs r2) with
            | none => none
            | some (v, r3) =>
              match skipWs r3 with
              | ',' :: r4 =>
                (pf (skipWs r4)).map fun p => ((String.mk k, v) :: p.1, p.2)
              | d :: r4 =>
                if d = rbrace then some ([(String.mk k, v)], r4) else none
              | [] => none
          | _ => none
      | _ => none)

/-- The JSON value reader at a given fuel. -/
def parseValue (fuel : Nat) (cs : List Char) : Option (Json × List Char) :=
  (parsers fuel).1 cs

/-- The array-element reader at a given fuel. -/
def parseElems (fuel : Nat) (cs : List Char) :
    Option (List Json × List Char) :=
  (parsers fuel).2.1 cs

/-- The object-field reader at a given fuel. -/
def parseFields (fuel : Nat) (cs : List Char) :
    Option (List (String × Json) × List Char) :=
  (parsers fuel).2.2 cs

/-- json.loads on the modelled JSON text: a whole document is a value
surrounded only by whitespace.  The fuel passed in exceeds what any
document of that length can consume. -/
def loads (s : String) : Option Json :=
  match parseValue (s.data.length + 7) (skipWs s.data) with
  | some (v, r) => if skipWs r = [] then some v else none
  | none => none

/-- One recipe entry: a name, a display color and an integral quantity of
parts, as in the data model section of the specification. -/
structure Ingredient where
  name : String
  color : String
  parts : Int
deriving DecidableEq

/-- JSON form of one recipe entry, with the key order used throughout the
project examples. -/
def encodeIngredient (i : Ingredient) : Json :=
  .obj [("name", .str i.name), ("color", .str i.color), ("parts", .int i.parts)]

/-- JSON form of a whole recipe: the ordered array of its entries. -/
def encodeRecipe (r : List Ingredient) : Json :=
  .arr (r.map encodeIngredient)

/-- Structured reading of one recipe entry back out of its JSON form. -/
def decodeIngredient : Json → Option Ingredient
  | .obj [("name", .str n), ("color", .str c), ("parts", .int p)] =>
      some ⟨n, c, p⟩
  | _ => none

/-- Structured reading of a recipe back out of its JSON form. -/
def decodeRecipe : Json → Option (List Ingredient)
  | .arr es => es.mapM decodeIngredient
  | _ => none

/-- Modelled from the spec: the persisted row of the drinks table
(models.py is not in the source tree).  The recipe column holds the
serialized structured text. -/
structure Drink where
  id : Nat
  title : String
  recipe : String

/-- Removes the quantity key from one recipe entry, leaving other values
untouched. -/
def redactQuantity : Json → Json
  | .obj fields => .obj (fields.filter fun kv => !(kv.1 == "parts"))
  | j => j

/-- Removes the quantity keys from every entry of a recipe value. -/
def shortRecipe : Json → Json
  | .arr es => .arr (es.map redactQuantity)
  | j => j

/-- Modelled from the spec: the long projection of a drink (models.py is
not in the source tree) — id, title and the full deserialized recipe.
Returns none when the stored text does not deserialize, which in the
Python code surfaces as an exception. -/
def Drink.long (d : Drink) : Option Json :=
  (loads d.recipe).map fun r =>
    .obj [("id", .int (d.id : Int)), ("title", .str d.title), ("recipe", r)]

/-- Modelled from the spec: the short projection of a drink (models.py is
not in the source tree) — id, title and the recipe with quantities
redacted. -/
def Drink.short (d : Drink) : Option Json :=
  (loads d.recipe).map fun r =>
    .obj [("id", .int (d.id : Int)), ("title", .str d.title),
          ("recipe", shortRecipe r)]

/-- The persisted table state. -/
abbrev Store := List Drink

/-- The ascending-id ordering the list endpoints sort by. -/
def idLE (a b : Drink) : Prop := a.id ≤ b.id

instance : DecidableRel idLE := fun a b => Nat.decLe a.id b.id

instance : IsTotal Drink idLE := ⟨fun a b => Nat.le_total a.id b.id⟩

instance : IsTrans Drink idLE := ⟨fun _ _ _ => Nat.le_trans⟩

/-- Modelled from the spec: `Drink.query.order_by(Drink.id).all()` — every
row of the table, ordered by id ascending. -/
def listAll (s : Store) : List Drink := List.insertionSort idLE s

/-- Modelled from the spec: `Drink.query.get(id)` — primary-key lookup. -/
def findDrink (s : Store) (id : Nat) : Option Drink :=
  s.find? fun d => d.id == id

/-- Modelled from the spec: id assignment on creation — a fresh id one
above every id in the table. -/
def nextId (s : Store) : Nat := (s.map Drink.id).foldr max 0 + 1

/-- Failure of the underlying storage, per the spec error taxonomy. -/
inductive StoreError where
  | unavailable

/-- Modelled from the spec: the possible dispositions of the bearer token
on an incoming request (auth/auth.py is not in the source tree). -/
inductive TokenInput where
  | noToken
  | malformed
  | invalidSignature
  | expired
  | invalidClaims
  | valid (permissions : List String)

/-- The exception raised by the token verifier, carrying a description and
the HTTP status code the error handler must reuse. -/
structure AuthError where
  status_code : Nat
  description : String
deriving DecidableEq

/-- Modelled from the spec: `verify(token, required_permission)`
(auth/auth.py is not in the source tree).  A missing token fails with 401;
a verified token without the required permission fails with 403; other
verification failures carry 401. -/
def verify (t : TokenInput) (required : String) : Except AuthError (List String) :=
  match t with
  | .noToken => .error ⟨401, "Authorization header is expected."⟩
  | .malformed => .error ⟨401, "Unable to parse authentication token."⟩
  | .invalidSignature => .error ⟨401, "Signature verification failed."⟩
  | .expired => .error ⟨401, "Token expired."⟩
  | .invalidClaims => .error ⟨401, "Incorrect claims."⟩
  | .valid perms =>
      if required ∈ perms then .ok perms
      else .error ⟨403, "Permission not found."⟩

/-- An HTTP response: a status code and a JSON body. -/
structure Response where
  status : Nat
  body : Json

/-- The uniform error envelope every error handler in api.py returns. -/
def errorBody (code : Nat) (message : String) : Json :=
  .obj [("success", .bool false), ("error", .int (code : Int)),
        ("message", .str message)]

/-- The 400 handler of api.py. -/
def bad_request : Response := ⟨400, errorBody 400 "Bad Request"⟩

/-- The 401 handler of api.py. -/
def unauthorized : Response := ⟨401, errorBody 401 "unauthorized"⟩

/-- The 404 handler of api.py. -/
def not_found : Response := ⟨404, errorBody 404 "Not Found"⟩

/-- The 405 handler of api.py. -/
def method_not_allowed : Response := ⟨405, errorBody 405 "Method Not Allowed"⟩

/-- The 422 handler of api.py (the message spelling is the code's own). -/
def unprocessable : Response := ⟨422, errorBody 422 "Unproccessable"⟩

/-- The 500 handler of api.py. -/
def internal_server_error : Response := ⟨500, errorBody 500 "Internal Server Error"⟩

/-- The AuthError handler of api.py: renders the envelope with the status
code carried by the exception, and responds with that same status. -/
def auth_error (e : AuthError) : Response :=
  ⟨e.status_code, errorBody e.status_code e.description⟩

/-- Projection of a list of drinks through a fallible projection, as the
list comprehensions in the handlers do: any failing row fails the whole
projection (an exception in Python). -/
def projectAll (proj : Drink → Option Json) : List Drink → Option (List Json)
  | [] => some []
  | d :: ds =>
    match proj d, projectAll proj ds with
    | some j, some js => some (j :: js)
    | _, _ => none

/-- A success envelope carrying a list of drinks under the drinks key. -/
def drinksBody (items : List Json) : Json :=
  .obj [("success", .bool true), ("drinks", .arr items)]

/-- GET /drinks from api.py: lists every drink in short form, ordered by
id; any failure inside the try block is rendered as 404. -/
def get_drinks (q : Except StoreError Store) : Response :=
  match q with
  | .error _ => not_found
  | .ok s =>
    match projectAll Drink.short (listAll s) with
    | some items => ⟨200, drinksBody items⟩
    | none => not_found

/-- GET /drinks-detail from api.py: gated on get:drinks-detail, lists every
drink in long form, ordered by id; any failure inside the try block is
rendered as 404. -/
def get_drinks_detail (t : TokenInput) (q : Except StoreError Store) : Response :=
  match verify t "get:drinks-detail" with
  | .error e => auth_error e
  | .ok _ =>
    match q with
    | .error _ => not_found
    | .ok s =>
      match projectAll Drink.long (listAll s) with
      | some items => ⟨200, drinksBody items⟩
      | none => not_found

/-- A parsed request body: which of the two optional keys are present and
with which values, as the handlers probe the parsed JSON dict. -/
structure RequestData where
  title : Option String
  recipe : Option Json

/-- POST /drinks from api.py, including its presence check exactly as
written: `if title and recipe not in data` only tests the recipe key (the
title literal is truthy), so a body with a recipe but no title passes the
check and the later title lookup raises a KeyError, rendered as 500. -/
def post_drink (t : TokenInput) (s : Store) (data : RequestData) :
    Response × Store :=
  match verify t "post:drinks" with
  | .error e => (auth_error e, s)
  | .ok _ =>
    match data.recipe with
    | none => (unprocessable, s)
    | some r =>
      match data.title with
      | none => (internal_server_error, s)
      | some title =>
        let drink : Drink := ⟨nextId s, title, dumps r⟩
        match drink.long with
        | some body => (⟨200, drinksBody [body]⟩, s ++ [drink])
        | none => (internal_server_error, s ++ [drink])

/-- PATCH /drinks/id from api.py: looks the row up (404 when absent), then
overwrites exactly the fields present in the body, re-serializing a
supplied recipe, persists, and answers with the long form. -/
def update_drink (t : TokenInput) (s : Store) (id : Nat) (data : RequestData) :
    Response × Store :=
  match verify t "patch:drinks" with
  | .error e => (auth_error e, s)
  | .ok _ =>
    match findDrink s id with
    | none => (not_found, s)
    | some drink =>
      let d1 := match data.title with
        | some tt => { drink with title := tt }
        | none => drink
      let d2 := match data.recipe with
        | some r => { d1 with recipe := dumps r }
        | none => d1
      let s2 := s.map fun e => if e.id == id then d2 else e
      match d2.long with
      | some body => (⟨200, drinksBody [body]⟩, s2)
      | none => (internal_server_error, s2)

/-- DELETE /drinks/id from api.py: looks the row up (404 when absent),
removes it, and answers success with the removed id under the delete
key. -/
def delete_drink (t : TokenInput) (s : Store) (id : Nat) : Response × Store :=
  match verify t "delete:drinks" with
  | .error e => (auth_error e, s)
  | .ok _ =>
    match findDrink s id with
    | none => (not_found, s)
    | some drink =>
      (⟨200, .obj [("success", .bool true), ("delete", .int (drink.id : Int))]⟩,
       s.filter fun e => !(e.id == id))

/-- Whether a response body is a JSON object carrying a boolean under the
success key. -/
def hasSuccessBool (r : Response) : Bool :=
  match r.body with
  | .obj fields =>
    fields.any fun kv =>
      match kv.2 with
      | .bool _ => kv.1 == "success"
      | _ => false
  | _ => false

/-- A JSON value whose rendering starts with no whitespace and is read
back exactly by the value reader, for any continuation that does not start
with a digit. -/
def ValOk (v : Json) : Prop :=
  (∀ rest, skipWs (renderJson v ++ rest) = renderJson v ++ rest)
  ∧ ∀ f rest, headIsDigit rest = false
      → parseValue (f + 1) (renderJson v ++ rest) = some (v, rest)

/-- Claim C1: the create endpoint is meant to treat title and recipe as
independently required, answering 422 when either is missing.  The code
only rejects a missing recipe: with the recipe present and the title
absent the presence check passes (the title literal in the condition is
truthy) and the handler answers 500 from the failing title lookup, not
422. -/
theorem claim_C1_post_requires_both_fields :
    (post_drink (.valid ["post:drinks"]) [] ⟨some "Water", none⟩).1.status = 422
    ∧ (post_drink (.valid ["post:drinks"]) []
        ⟨none, some (encodeRecipe [⟨"Water", "blue", 1⟩])⟩).1.status = 500 :=
  ⟨rfl, rfl⟩

/-- Claim C4: on each gated route a verified token whose permission set
lacks that route's required permission — whatever other permissions it
holds — is answered 403, a missing token is answered 401, and whenever
verification fails the response status is the status code carried by the
raised AuthError. -/
theorem claim_C4_gated_routes_auth_statuses (perms : List String)
    (q : Except StoreError Store) (s : Store) (id : Nat)
    (data : RequestData) :
    ("get:drinks-detail" ∉ perms
      → (get_drinks_detail (.valid perms) q).status = 403)
    ∧ ("post:drinks" ∉ perms
      → (post_drink (.valid perms) s data).1.status = 403)
    ∧ ("patch:drinks" ∉ perms
      → (update_drink (.valid perms) s id data).1.status = 403)
    ∧ ("delete:drinks" ∉ perms
      → (delete_drink (.valid perms) s id).1.status = 403)
    ∧ (get_drinks_detail .noToken q).status = 401
    ∧ (post_drink .noToken s data).1.status = 401
    ∧ (update_drink .noToken s id data).1.status = 401
    ∧ (delete_drink .noToken s id).1.status = 401
    ∧ (∀ (t : TokenInput) (p : String) (e : AuthError),
        verify t p = .error e → (auth_error e).status = e.status_code) := by
  refine ⟨?_, ?_, ?_, ?_, rfl, rfl, rfl, rfl, fun t p e _ => rfl⟩ <;>
    (intro h;
     simp [get_drinks_detail, post_drink, update_drink, delete_drink,
       verify, h, auth_error])

/-- Witness for claim C4: a token holding a different route's permission
but lacking the required one gets 403, and a tokenless request gets
401. -/
theorem claim_C4_witness :
    (get_drinks_detail (.valid ["post:drinks"]) (.ok [])).status = 403
    ∧ (delete_drink .noToken [] 1).1.status = 401 :=
  ⟨(claim_C4_gated_routes_auth_statuses ["post:drinks"] (.ok []) [] 1
      ⟨none, none⟩).1 (by decide),
   (claim_C4_gated_routes_auth_statuses ["post:drinks"] (.ok []) [] 1
      ⟨none, none⟩).2.2.2.2.2.2.2.1⟩

/-- Claim C5: deleting an id that is not in the store answers 404 — never
a 200 success — and leaves the store unchanged. -/
theorem claim_C5_delete_missing_404 (perms : List String) (s : Store) (id : Nat)
    (hp : "delete:drinks" ∈ perms) (h : findDrink s id = none) :
    delete_drink (.valid perms) s id = (not_found, s)
    ∧ not_found.status = 404 ∧ not_found.status ≠ 200 := by
  refine ⟨?_, rfl, by decide⟩
  simp [delete_drink, verify, hp, h]

/-- Witness for claim C5 on the empty store. -/
theorem claim_C5_witness :
    delete_drink (.valid ["delete:drinks"]) [] 3 = (not_found, []) :=
  (claim_C5_delete_missing_404 ["delete:drinks"] [] 3 (by simp) rfl).1

/-- Claim C6: the list operation backing both read endpoints returns all
rows of the store, ordered by id ascending. -/
theorem claim_C6_list_all_sorted_by_id (s : Store) :
    (listAll s).Sorted idLE ∧ (listAll s).Perm s :=
  ⟨List.sorted_insertionSort idLE s, List.perm_insertionSort idLE s⟩

/-- Claim C7: on both read endpoints a failing store operation is caught
at the handler boundary and rendered as the 404 error envelope. -/
theorem claim_C7_read_paths_store_failure_404 (e : StoreError)
    (perms : List String) (hp : "get:drinks-detail" ∈ perms) :
    get_drinks (.error e) = not_found
    ∧ get_drinks_detail (.valid perms) (.error e) = not_found
    ∧ not_found.status = 404
    ∧ not_found.body = errorBody 404 "Not Found" := by
  refine ⟨rfl, ?_, rfl, rfl⟩
  simp [get_drinks_detail, verify, hp]

/-- Witness for claim C7 at a concrete unavailable store. -/
theorem claim_C7_witness :
    get_drinks_detail (.valid ["get:drinks-detail"]) (.error .unavailable)
      = not_found :=
  (claim_C7_read_paths_store_failure_404 .unavailable ["get:drinks-detail"]
    (by simp)).2.1

/-- Claim C2: deleting an existing id removes that row and answers 200
with a success body whose deleted-id field is exactly the id of the
removed record. -/
theorem claim_C2_delete_existing (perms : List String) (s : Store) (id : Nat)
    (drink : Drink) (hp : "delete:drinks" ∈ perms)
    (h : findDrink s id = some drink) :
    (delete_drink (.valid perms) s id).1
      = ⟨200, .obj [("success", .bool true), ("delete", .int (id : Int))]⟩
    ∧ drink.id = id
    ∧ (∀ e, e ∈ (delete_drink (.valid perms) s id).2 ↔ e ∈ s ∧ e.id ≠ id) := by
  have hid : drink.id = id := by simpa using List.find?_some h
  refine ⟨?_, hid, fun e => ?_⟩
  · simp [delete_drink, verify, hp, h, hid]
  · simp [delete_drink, verify, hp, h, List.mem_filter]

/-- Witness for claim C2 on a one-row store. -/
theorem claim_C2_witness :
    (delete_drink (.valid ["delete:drinks"]) [⟨1, "Water", "r"⟩] 1).1
      = ⟨200, .obj [("success", .bool true), ("delete", .int 1)]⟩ :=
  (claim_C2_delete_existing ["delete:drinks"] [⟨1, "Water", "r"⟩] 1
    ⟨1, "Water", "r"⟩ (by simp) rfl).1

/-- Claim C8: every error handler answers the uniform envelope — success
false, the numeric code equal to the HTTP status, and a message — the
AuthError handler reuses the status carried by the exception, and every
response any handler of the API produces carries a success boolean. -/
theorem claim_C8_uniform_error_envelope :
    (∃ m, bad_request.body = errorBody bad_request.status m)
    ∧ (∃ m, unauthorized.body = errorBody unauthorized.status m)
    ∧ (∃ m, not_found.body = errorBody not_found.status m)
    ∧ (∃ m, method_not_allowed.body = errorBody method_not_allowed.status m)
    ∧ (∃ m, unprocessable.body = errorBody unprocessable.status m)
    ∧ (∃ m, internal_server_error.body = errorBody internal_server_error.status m)
    ∧ (∀ e : AuthError, (auth_error e).status = e.status_code
        ∧ (auth_error e).body = errorBody e.status_code e.description
        ∧ hasSuccessBool (auth_error e) = true)
    ∧ (∀ q, hasSuccessBool (get_drinks q) = true)
    ∧ (∀ t q, hasSuccessBool (get_drinks_detail t q) = true)
    ∧ (∀ t s data, hasSuccessBool (post_drink t s data).1 = true)
    ∧ (∀ t s id data, hasSuccessBool (update_drink t s id data).1 = true)
    ∧ (∀ t s id, hasSuccessBool (delete_drink t s id).1 = true) := by
  refine ⟨⟨_, rfl⟩, ⟨_, rfl⟩, ⟨_, rfl⟩, ⟨_, rfl⟩, ⟨_, rfl⟩, ⟨_, rfl⟩,
    fun e => ⟨rfl, rfl, by simp [hasSuccessBool, auth_error, errorBody]⟩,
    ?_, ?_, ?_, ?_, ?_⟩
  · intro q
    unfold get_drinks
    repeat' split
    all_goals simp [hasSuccessBool, drinksBody, not_found, errorBody]
  · intro t q
    unfold get_drinks_detail
    repeat' split
    all_goals simp [hasSuccessBool, drinksBody, not_found, errorBody,
      auth_error]
  · intro t s data
    obtain ⟨dt, dr⟩ := data
    rcases hv : verify t "post:drinks" with e | p
    · simp [post_drink, hv, hasSuccessBool, auth_error, errorBody]
    · cases dr with
      | none => simp [post_drink, hv, hasSuccessBool, unprocessable, errorBody]
      | some r =>
        cases dt with
        | none =>
          simp [post_drink, hv, hasSuccessBool, internal_server_error,
            errorBody]
        | some title =>
          rcases hL : loads (dumps r) with _ | rv <;>
            simp [post_drink, hv, hL, hasSuccessBool, Drink.long,
              internal_server_error, errorBody, drinksBody]
  · intro t s id data
    obtain ⟨dt, dr⟩ := data
    rcases hv : verify t "patch:drinks" with e | p
    · simp [update_drink, hv, hasSuccessBool, auth_error, errorBody]
    · rcases hf : findDrink s id with _ | drink
      · simp [update_drink, hv, hf, hasSuccessBool, not_found, errorBody]
      · cases dr with
        | some r =>
          cases dt <;>
            rcases hL : loads (dumps r) with _ | rv <;>
              simp [update_drink, hv, hf, hL, hasSuccessBool, Drink.long,
                internal_server_error, errorBody, drinksBody]
        | none =>
          cases dt <;>
            rcases hL : loads drink.recipe with _ | rv <;>
              simp [update_drink, hv, hf, hL, hasSuccessBool, Drink.long,
                internal_server_error, errorBody, drinksBody]
  · intro t s id
    unfold delete_drink
    repeat' split
    all_goals simp [hasSuccessBool, errorBody, auth_error, not_found]

/-- With no duplicate ids in the table, every row carrying the looked-up id
is the row the primary-key lookup returned. -/
theorem find_unique_by_id (s : Store) (id : Nat) (drink : Drink)
    (hf : findDrink s id = some drink) (hn : (s.map Drink.id).Nodup) :
    ∀ e ∈ s, e.id = id → e = drink := by
  induction s with
  | nil => simp [findDrink] at hf
  | cons a l ih =>
    have hcons : (∀ x ∈ l, ¬ x.id = a.id) ∧ (l.map Drink.id).Nodup := by
      simpa using hn
    intro e he heid
    rcases List.mem_cons.mp he with rfl | hmem
    · have hbeq : (e.id == id) = true := by simp [heid]
      have hfe : findDrink (e :: l) id = some e := by
        simp [findDrink, List.find?, hbeq]
      rw [hfe] at hf
      exact Option.some_inj.mp hf
    · by_cases ha : a.id = id
      · exact absurd (heid.trans ha.symm) (hcons.1 e hmem)
      · have hbeq : (a.id == id) = false := by simp [ha]
        have hf' : findDrink l id = some drink := by
          simpa [findDrink, List.find?, hbeq] using hf
        exact ih hf' hcons.2 e hmem heid

/-- Claim C10: a PATCH on an existing id with an empty body is accepted as
a no-op: it answers 200 with the long form of the item and returns the
store unchanged. -/
theorem claim_C10_patch_empty_body (perms : List String) (s : Store)
    (id : Nat) (drink : Drink)
    (hp : "patch:drinks" ∈ perms) (hf : findDrink s id = some drink)
    (hn : (s.map Drink.id).Nodup) (hr : (loads drink.recipe).isSome) :
    ∃ body, drink.long = some body
      ∧ update_drink (.valid perms) s id ⟨none, none⟩
          = (⟨200, drinksBody [body]⟩, s) := by
  obtain ⟨rv, hrv⟩ := Option.isSome_iff_exists.mp hr
  refine ⟨Json.obj [("id", .int (drink.id : Int)), ("title", .str drink.title),
    ("recipe", rv)], by simp [Drink.long, hrv], ?_⟩
  have hmap : (s.map fun e => if e.id = id then drink else e) = s := by
    have hpt : ∀ e ∈ s, (if e.id = id then drink else e) = e := by
      intro e he
      by_cases h : e.id = id
      · have hed : e = drink := find_unique_by_id s id drink hf hn e he h
        simp [h, hed]
      · simp [h]
    calc (s.map fun e => if e.id = id then drink else e)
        = s.map (fun e => e) := List.map_congr_left hpt
      _ = s := List.map_id' s
  simp [update_drink, verify, hp, hf, Drink.long, hrv, hmap]

/-- Witness for claim C10 on a one-row store. -/
theorem claim_C10_witness :
    ∃ body, (Drink.long ⟨1, "Water", "[]"⟩) = some body
      ∧ update_drink (.valid ["patch:drinks"]) [⟨1, "Water", "[]"⟩] 1
          ⟨none, none⟩ = (⟨200, drinksBody [body]⟩, [⟨1, "Water", "[]"⟩]) :=
  claim_C10_patch_empty_body ["patch:drinks"] [⟨1, "Water", "[]"⟩] 1
    ⟨1, "Water", "[]"⟩ (by simp) rfl (by simp) (by decide)

/-- Reading back a hex digit gives the value it encodes. -/
theorem hexVal_hexDigit : ∀ d, d < 16 → hexVal (hexDigit d) = some d := by
  decide

/-- The string-body reader inverts the escaper, for every character list
and any continuation after the closing quote. -/
theorem parseStringBody_escapeChars (cs rest : List Char) :
    parseStringBody (escapeChars cs ++ '"' :: rest) = some (cs, rest) := by
  induction cs with
  | nil =>
    rw [show escapeChars [] ++ '"' :: rest = '"' :: rest from by
      simp [escapeChars]]
    rw [parseStringBody.eq_def]
    simp
  | cons c cs ih =>
    by_cases h1 : c = '"'
    · subst h1
      rw [show escapeChars ('"' :: cs) ++ '"' :: rest
          = '\\' :: '"' :: (escapeChars cs ++ '"' :: rest) from by
        simp [escapeChars, escapeChar]]
      rw [parseStringBody.eq_def]
      simp [ih]
    · by_cases h2 : c = '\\'
      · subst h2
        rw [show escapeChars ('\\' :: cs) ++ '"' :: rest
            = '\\' :: '\\' :: (escapeChars cs ++ '"' :: rest) from by
          simp [escapeChars, escapeChar]]
        rw [parseStringBody.eq_def]
        simp [ih]
      · by_cases h3 : c = Char.ofNat 8
        · subst h3
          rw [show escapeChars (Char.ofNat 8 :: cs) ++ '"' :: rest
              = '\\' :: 'b' :: (escapeChars cs ++ '"' :: rest) from by
            simp [escapeChars, escapeChar]]
          rw [parseStringBody.eq_def]
          simp [ih]
        · by_cases h4 : c = Char.ofNat 9
          · subst h4
            rw [show escapeChars (Char.ofNat 9 :: cs) ++ '"' :: rest
                = '\\' :: 't' :: (escapeChars cs ++ '"' :: rest) from by
              simp [escapeChars, escapeChar]]
            rw [parseStringBody.eq_def]
            simp [ih]
          · by_cases h5 : c = Char.ofNat 10
            · subst h5
              rw [show escapeChars (Char.ofNat 10 :: cs) ++ '"' :: rest
                  = '\\' :: 'n' :: (escapeChars cs ++ '"' :: rest) from by
                simp [escapeChars, escapeChar]]
              rw [parseStringBody.eq_def]
              simp [ih]
            · by_cases h6 : c = Char.ofNat 12
              · subst h6
                rw [show escapeChars (Char.ofNat 12 :: cs) ++ '"' :: rest
                    = '\\' :: 'f' :: (escapeChars cs ++ '"' :: rest) from by
                  simp [escapeChars, escapeChar]]
                rw [parseStringBody.eq_def]
                simp [ih]
              · by_cases h7 : c = Char.ofNat 13
                · subst h7
                  rw [show escapeChars (Char.ofNat 13 :: cs) ++ '"' :: rest
                      = '\\' :: 'r' :: (escapeChars cs ++ '"' :: rest) from by
                    simp [escapeChars, escapeChar]]
                  rw [parseStringBody.eq_def]
                  simp [ih]
                · by_cases h8 : c.toNat < 32
                  · have hv1 : hexVal (hexDigit (c.toNat / 16))
                        = some (c.toNat / 16) := hexVal_hexDigit _ (by omega)
                    have hv2 : hexVal (hexDigit (c.toNat % 16))
                        = some (c.toNat % 16) := hexVal_hexDigit _ (by omega)
                    have h0 : hexVal '0' = some 0 := rfl
                    have hofn : Char.ofNat (c.toNat / 16 * 16 + c.toNat % 16)
                        = c := by
                      rw [show c.toNat / 16 * 16 + c.toNat % 16 = c.toNat from
                        by omega]
                      exact Char.ofNat_toNat c
                    rw [show escapeChars (c :: cs) ++ '"' :: rest
                        = '\\' :: 'u' :: '0' :: '0'
                            :: hexDigit (c.toNat / 16)
                            :: hexDigit (c.toNat % 16)
                            :: (escapeChars cs ++ '"' :: rest) from by
                      simp [escapeChars, escapeChar, h1, h2, h3, h4, h5, h6,
                        h7, h8]]
                    rw [parseStringBody.eq_def]
                    simp [h0, hv1, hv2, hofn, ih]
                  · rw [show escapeChars (c :: cs) ++ '"' :: rest
                        = c :: (escapeChars cs ++ '"' :: rest) from by
                      simp [escapeChars, escapeChar, h1, h2, h3, h4, h5, h6,
                        h7, h8]]
                    rw [parseStringBody.eq_def]
                    simp [h1, h2, ih]

/-- Every digit character the renderer emits passes the digit test. -/
theorem digitChar_isDig : ∀ d, d < 10 → isDig (Nat.digitChar d) = true := by
  decide

/-- Code point of a rendered digit. -/
theorem digitChar_toNat : ∀ d, d < 10 → (Nat.digitChar d).toNat = 48 + d := by
  decide

/-- Reading the rendered digits of a number extends the accumulator by
exactly that number. -/
theorem parseDigitsAux_natChars (n : Nat) : ∀ (acc : Nat) (suffix : List Char),
    parseDigitsAux acc (natChars n ++ suffix)
      = parseDigitsAux (acc * 10 ^ (natChars n).length + n) suffix := by
  induction n using Nat.strong_induction_on with
  | _ n ih =>
    intro acc suffix
    by_cases h : n < 10
    · rw [show natChars n = [Nat.digitChar n] from by rw [natChars]; simp [h]]
      have hd := digitChar_isDig n h
      have harith : acc * 10 + ((Nat.digitChar n).toNat - 48)
          = acc * 10 ^ ([Nat.digitChar n].length) + n := by
        rw [digitChar_toNat n h]
        simp
      simp [parseDigitsAux, hd, harith]
    · rw [show natChars n = natChars (n / 10) ++ [Nat.digitChar (n % 10)] from
        by rw [natChars]; simp [h]]
      rw [List.append_assoc, ih (n / 10) (by omega)]
      have hd := digitChar_isDig (n % 10) (by omega)
      simp only [List.cons_append, List.nil_append]
      rw [show parseDigitsAux (acc * 10 ^ (natChars (n / 10)).length + n / 10)
            (Nat.digitChar (n % 10) :: suffix)
          = parseDigitsAux ((acc * 10 ^ (natChars (n / 10)).length + n / 10)
              * 10 + ((Nat.digitChar (n % 10)).toNat - 48)) suffix from by
        simp [parseDigitsAux, hd]]
      congr 1
      have ht : (Nat.digitChar (n % 10)).toNat - 48 = n % 10 := by
        rw [digitChar_toNat (n % 10) (by omega)]
        omega
      rw [ht, List.length_append, List.length_cons, List.length_nil,
        pow_succ]
      have hdm : n / 10 * 10 + n % 10 = n := by omega
      calc (acc * 10 ^ (natChars (n / 10)).length + n / 10) * 10 + n % 10
          = acc * 10 ^ (natChars (n / 10)).length * 10
              + (n / 10 * 10 + n % 10) := by ring
        _ = acc * (10 ^ (natChars (n / 10)).length * 10) + n := by
              rw [hdm]; ring

/-- The digit reader stops at a character that is not a digit. -/
theorem parseDigitsAux_stop (m : Nat) (rest : List Char)
    (h : headIsDigit rest = false) : parseDigitsAux m rest = (m, rest) := by
  cases rest with
  | nil => simp [parseDigitsAux]
  | cons c cs =>
    simp only [headIsDigit] at h
    simp [parseDigitsAux, h]

/-- The decimal rendering of a natural number starts with a digit. -/
theorem natChars_cons (n : Nat) :
    ∃ c cs, natChars n = c :: cs ∧ isDig c = true := by
  induction n using Nat.strong_induction_on with
  | _ n ih =>
    by_cases h : n < 10
    · exact ⟨Nat.digitChar n, [], by rw [natChars]; simp [h],
        digitChar_isDig n h⟩
    · obtain ⟨c, cs, hc, hd⟩ := ih (n / 10) (by omega)
      exact ⟨c, cs ++ [Nat.digitChar (n % 10)],
        by rw [natChars]; simp [h, hc], hd⟩

/-- The number reader inverts the integer renderer whenever the
continuation does not begin with another digit. -/
theorem parseNumber_intChars (i : Int) (rest : List Char)
    (h : headIsDigit rest = false) :
    parseNumber (intChars i ++ rest) = some (i, rest) := by
  cases i with
  | ofNat n =>
    obtain ⟨c, cs, hc, hd⟩ := natChars_cons n
    have hne : ¬ c = '-' := by
      intro he
      rw [he] at hd
      exact absurd hd (by decide)
    rw [show intChars (.ofNat n) = natChars n from rfl, hc, List.cons_append]
    rw [parseNumber]
    simp only [if_neg hne, hd, if_pos]
    rw [← List.cons_append, ← hc, parseDigitsAux_natChars n 0 rest,
      parseDigitsAux_stop _ _ h]
    simp
  | negSucc n =>
    obtain ⟨c, cs, hc, hd⟩ := natChars_cons (n + 1)
    have hh : headIsDigit (natChars (n + 1) ++ rest) = true := by
      rw [hc, List.cons_append]
      simpa [headIsDigit] using hd
    rw [show intChars (.negSucc n) = '-' :: natChars (n + 1) from rfl,
      List.cons_append, parseNumber]
    simp only [if_pos rfl, hh, if_pos]
    rw [parseDigitsAux_natChars (n + 1) 0 rest, parseDigitsAux_stop _ _ h]
    simp [Int.negSucc_eq]

/-- A digit is not JSON whitespace. -/
theorem isWs_eq_false_of_isDig (c : Char) (h : isDig c = true) :
    isWs c = false := by
  simp only [isDig, Bool.and_eq_true, decide_eq_true_eq] at h
  simp only [isWs, Bool.or_eq_false_iff, decide_eq_false_iff_not]
  omega

/-- A digit is none of the literal dispatch characters of the value
reader. -/
theorem notLit_of_isDig (c : Char) (h : isDig c = true) :
    ¬ c = '"' ∧ ¬ c = '[' ∧ ¬ c = lbrace ∧ ¬ c = 't' ∧ ¬ c = 'f'
      ∧ ¬ c = 'n' ∧ ¬ c = '-' := by
  refine ⟨?_, ?_, ?_, ?_, ?_, ?_, ?_⟩ <;>
    (intro he; rw [he] at h; revert h; decide)

/-- Skipping whitespace leaves a list alone when its head is not
whitespace. -/
theorem skipWs_not_ws (c : Char) (cs : List Char) (h : isWs c = false) :
    skipWs (c :: cs) = c :: cs := by
  simp [skipWs, h]

/-- Skipping whitespace removes a leading space. -/
theorem skipWs_space (cs : List Char) : skipWs (' ' :: cs) = skipWs cs := rfl

/-- One step of the value reader on an opening quote. -/
theorem parseValue_quote (f : Nat) (cs1 : List Char) :
    parseValue (f + 1) ('"' :: cs1)
      = (parseStringBody cs1).map fun p => (Json.str (String.mk p.1), p.2) :=
  rfl

/-- One step of the value reader on an opening bracket. -/
theorem parseValue_lbrack (f : Nat) (cs1 : List Char) :
    parseValue (f + 1) ('[' :: cs1)
      = match skipWs cs1 with
        | ']' :: r => some (.arr [], r)
        | cs2 => (parseElems f cs2).map fun p => (.arr p.1, p.2) :=
  rfl

/-- One step of the value reader on an opening brace. -/
theorem parseValue_lbrace (f : Nat) (cs1 : List Char) :
    parseValue (f + 1) (lbrace :: cs1)
      = match skipWs cs1 with
        | d :: r =>
          if d = rbrace then some (.obj [], r)
          else (parseFields f (d :: r)).map fun p => (.obj p.1, p.2)
        | [] => none :=
  rfl

/-- One step of the value reader on a number head. -/
theorem parseValue_num (f : Nat) (c : Char) (cs1 : List Char)
    (h1 : ¬ c = '"') (h2 : ¬ c = '[') (h3 : ¬ c = lbrace) (h4 : ¬ c = 't')
    (h5 : ¬ c = 'f') (h6 : ¬ c = 'n') :
    parseValue (f + 1) (c :: cs1)
      = (parseNumber (c :: cs1)).map fun p => (.int p.1, p.2) := by
  simp only [parseValue, parsers]
  rw [if_neg h1, if_neg h2, if_neg h3, if_neg h4, if_neg h5, if_neg h6]

/-- One step of the element reader. -/
theorem parseElems_succ (f : Nat) (cs : List Char) :
    parseElems (f + 1) cs
      = match parseValue f cs with
        | none => none
        | some (v, r) =>
          match skipWs r with
          | ',' :: r2 =>
            (parseElems f (skipWs r2)).map fun p => (v :: p.1, p.2)
          | ']' :: r2 => some ([v], r2)
          | _ => none :=
  rfl

/-- One step of the field reader on an opening quote. -/
theorem parseFields_quote (f : Nat) (cs1 : List Char) :
    parseFields (f + 1) ('"' :: cs1)
      = match parseStringBody cs1 with
        | none => none
        | some (k, r) =>
          match skipWs r with
          | ':' :: r2 =>
            match parseValue f (skipWs r2) with
            | none => none
            | some (v, r3) =>
              match skipWs r3 with
              | ',' :: r4 =>
                (parseFields f (skipWs r4)).map fun p =>
                  ((String.mk k, v) :: p.1, p.2)
              | d :: r4 =>
                if d = rbrace then some ([(String.mk k, v)], r4) else none
              | [] => none
          | _ => none :=
  rfl

/-- The value reader inverts the string renderer. -/
theorem parseValue_renderStr (f : Nat) (s : String) (rest : List Char) :
    parseValue (f + 1) (renderStr s ++ rest) = some (.str s, rest) := by
  rw [renderStr]
  simp only [List.cons_append, List.append_assoc, List.singleton_append]
  rw [parseValue_quote, parseStringBody_escapeChars]
  rfl

/-- The value reader inverts the integer renderer whenever the
continuation does not begin with another digit. -/
theorem parseValue_intChars (f : Nat) (i : Int) (rest : List Char)
    (h : headIsDigit rest = false) :
    parseValue (f + 1) (intChars i ++ rest) = some (.int i, rest) := by
  have hnum := parseNumber_intChars i rest h
  obtain ⟨c, cs, hc, hor⟩ : ∃ c cs, intChars i ++ rest = c :: cs
      ∧ (c = '-' ∨ isDig c = true) := by
    cases i with
    | ofNat n =>
      obtain ⟨c, cs, hcn, hd⟩ := natChars_cons n
      exact ⟨c, cs ++ rest, by simp [intChars, hcn], Or.inr hd⟩
    | negSucc n =>
      exact ⟨'-', natChars (n + 1) ++ rest, by simp [intChars], Or.inl rfl⟩
  have hconds : ¬ c = '"' ∧ ¬ c = '[' ∧ ¬ c = lbrace ∧ ¬ c = 't'
      ∧ ¬ c = 'f' ∧ ¬ c = 'n' := by
    rcases hor with rfl | hd
    · exact ⟨by decide, by decide, by decide, by decide, by decide, by decide⟩
    · obtain ⟨h1, h2, h3, h4, h5, h6, _⟩ := notLit_of_isDig c hd
      exact ⟨h1, h2, h3, h4, h5, h6⟩
  rw [hc, parseValue_num f c cs hconds.1 hconds.2.1 hconds.2.2.1
    hconds.2.2.2.1 hconds.2.2.2.2.1 hconds.2.2.2.2.2]
  rw [← hc, hnum]
  rfl

/-- Rendered strings are read back exactly. -/
theorem valOk_str (s : String) : ValOk (.str s) := by
  constructor
  · intro rest
    rw [show renderJson (.str s) ++ rest
        = '"' :: (escapeChars s.data ++ '"' :: rest) from by
      rw [renderJson]; simp [renderStr, List.append_assoc]]
    exact skipWs_not_ws _ _ (by decide)
  · intro f rest _
    rw [show renderJson (.str s) = renderStr s from by rw [renderJson]]
    exact parseValue_renderStr f s rest

/-- Rendered integers are read back exactly when not followed directly by
another digit. -/
theorem valOk_int (n : Int) : ValOk (.int n) := by
  constructor
  · intro rest
    obtain ⟨c, cs, hc, hor⟩ : ∃ c cs, intChars n ++ rest = c :: cs
        ∧ (c = '-' ∨ isDig c = true) := by
      cases n with
      | ofNat m =>
        obtain ⟨c, cs, hcn, hd⟩ := natChars_cons m
        exact ⟨c, cs ++ rest, by simp [intChars, hcn], Or.inr hd⟩
      | negSucc m =>
        exact ⟨'-', natChars (m + 1) ++ rest, by simp [intChars], Or.inl rfl⟩
    rw [show renderJson (.int n) = intChars n from by rw [renderJson], hc]
    refine skipWs_not_ws _ _ ?_
    rcases hor with rfl | hd
    · decide
    · exact isWs_eq_false_of_isDig c hd
  · intro f rest h
    rw [show renderJson (.int n) = intChars n from by rw [renderJson]]
    exact parseValue_intChars f n rest h

/-- The digit test on a cons only looks at the head. -/
theorem headIsDigit_cons (c : Char) (cs : List Char) :
    headIsDigit (c :: cs) = isDig c := rfl

/-- A closing brace is not a digit. -/
theorem headIsDigit_rbrace (rest : List Char) :
    headIsDigit (rbrace :: rest) = false := rfl

/-- A comma is not a digit. -/
theorem headIsDigit_comma (rest : List Char) :
    headIsDigit (',' :: rest) = false := rfl

/-- Skipping whitespace leaves a rendered nonempty field list alone. -/
theorem skipWs_renderFields (k : String) (v : Json)
    (fs : List (String × Json)) (tail : List Char) :
    skipWs (renderFields ((k, v) :: fs) ++ tail)
      = renderFields ((k, v) :: fs) ++ tail := by
  cases fs with
  | nil =>
    rw [show renderFields [(k, v)] ++ tail
        = '"' :: (escapeChars k.data ++ '"'
            :: (':' :: ' ' :: (renderJson v ++ tail))) from by
      rw [renderFields]; simp [renderStr, List.append_assoc]]
    exact skipWs_not_ws _ _ (by decide)
  | cons g gs =>
    rw [show renderFields ((k, v) :: g :: gs) ++ tail
        = '"' :: (escapeChars k.data ++ '"' :: (':' :: ' ' :: (renderJson v
            ++ ',' :: ' ' :: (renderFields (g :: gs) ++ tail)))) from by
      rw [renderFields]; simp [renderStr, List.append_assoc]]
    exact skipWs_not_ws _ _ (by decide)

/-- The field reader inverts the field renderer on a nonempty field list
whose values are read back exactly, with fuel twice the number of
fields. -/
theorem parseFields_renderFields :
    ∀ (fields : List (String × Json)) (f : Nat) (rest : List Char),
      fields ≠ [] → (∀ kv ∈ fields, ValOk kv.2)
      → parseFields (f + 2 * fields.length)
          (renderFields fields ++ rbrace :: rest) = some (fields, rest)
  | [], _, _, hne, _ => absurd rfl hne
  | [(k, v)], f, rest, _, hvals => by
    have hv : ValOk v := hvals (k, v) (by simp)
    rw [show renderFields [(k, v)] ++ rbrace :: rest
        = '"' :: (escapeChars k.data ++ '"'
            :: (':' :: ' ' :: (renderJson v ++ rbrace :: rest))) from by
      rw [renderFields]; simp [renderStr, List.append_assoc]]
    rw [show f + 2 * [(k, v)].length = (f + 1) + 1 from by
      simp only [List.length_cons, List.length_nil]]
    rw [parseFields_quote, parseStringBody_escapeChars]
    simp only [skipWs_not_ws ':' _ (by decide), skipWs_space,
      hv.1 (rbrace :: rest),
      hv.2 f (rbrace :: rest) (headIsDigit_rbrace rest),
      skipWs_not_ws rbrace rest (by decide)]
    rfl
  | (k, v) :: g :: gs, f, rest, _, hvals => by
    have hv : ValOk v := hvals (k, v) (by simp)
    obtain ⟨k2, v2⟩ := g
    rw [show renderFields ((k, v) :: (k2, v2) :: gs) ++ rbrace :: rest
        = '"' :: (escapeChars k.data ++ '"' :: (':' :: ' ' :: (renderJson v
            ++ ',' :: ' ' :: (renderFields ((k2, v2) :: gs)
              ++ rbrace :: rest))))
      from by rw [renderFields]; simp [renderStr, List.append_assoc]]
    rw [show f + 2 * ((k, v) :: (k2, v2) :: gs).length
        = (f + 2 * ((k2, v2) :: gs).length + 1) + 1 from by
      simp only [List.length_cons]; omega]
    rw [parseFields_quote, parseStringBody_escapeChars]
    simp only [skipWs_not_ws ':' _ (by decide), skipWs_space,
      hv.1 (',' :: ' ' :: (renderFields ((k2, v2) :: gs) ++ rbrace :: rest)),
      hv.2 (f + 2 * ((k2, v2) :: gs).length)
        (',' :: ' ' :: (renderFields ((k2, v2) :: gs) ++ rbrace :: rest))
        (headIsDigit_comma (' ' :: (renderFields ((k2, v2) :: gs)
          ++ rbrace :: rest))),
      skipWs_not_ws ',' _ (by decide),
      skipWs_renderFields k2 v2 gs (rbrace :: rest)]
    rw [show f + 2 * ((k2, v2) :: gs).length + 1
        = (f + 1) + 2 * ((k2, v2) :: gs).length from by omega]
    rw [parseFields_renderFields ((k2, v2) :: gs) (f + 1) rest (by simp)
      (fun kv hkv => hvals kv (by simp [hkv]))]
    simp

/-- One step of the value reader on a brace followed directly by a
quote. -/
theorem parseValue_lbrace_quote (f : Nat) (t : List Char) :
    parseValue (f + 1) (lbrace :: '"' :: t)
      = (parseFields f ('"' :: t)).map fun p => (Json.obj p.1, p.2) := rfl

/-- The value reader inverts the renderer on one encoded ingredient. -/
theorem parseValue_encodeIngredient (f : Nat) (i : Ingredient)
    (rest : List Char) :
    parseValue (f + 7) (renderJson (encodeIngredient i) ++ rest)
      = some (encodeIngredient i, rest) := by
  have hfields : ∀ kv ∈ [("name", Json.str i.name),
      ("color", Json.str i.color), ("parts", Json.int i.parts)],
      ValOk kv.2 := by
    intro kv hkv
    simp only [List.mem_cons, List.not_mem_nil, or_false] at hkv
    rcases hkv with rfl | rfl | rfl
    · exact valOk_str i.name
    · exact valOk_str i.color
    · exact valOk_int i.parts
  rw [show renderJson (encodeIngredient i) ++ rest
      = lbrace :: '"' :: (escapeChars "name".data ++ '"' :: (':' :: ' '
          :: (renderJson (Json.str i.name) ++ ',' :: ' '
            :: (renderFields [("color", Json.str i.color),
                ("parts", Json.int i.parts)] ++ rbrace :: rest)))) from by
    simp [encodeIngredient, renderJson, renderFields, renderStr,
      List.append_assoc]]
  rw [show f + 7 = (f + 6) + 1 from rfl, parseValue_lbrace_quote]
  rw [show '"' :: (escapeChars "name".data ++ '"' :: (':' :: ' '
        :: (renderJson (Json.str i.name) ++ ',' :: ' '
          :: (renderFields [("color", Json.str i.color),
              ("parts", Json.int i.parts)] ++ rbrace :: rest))))
      = renderFields [("name", Json.str i.name), ("color", Json.str i.color),
          ("parts", Json.int i.parts)] ++ rbrace :: rest from by
    simp [renderJson, renderFields, renderStr, List.append_assoc]]
  rw [show f + 6 = f + 2 * ([("name", Json.str i.name),
      ("color", Json.str i.color), ("parts", Json.int i.parts)].length)
    from by simp]
  rw [parseFields_renderFields _ f rest (by simp) hfields]
  rfl

/-- The rendering of an object value, with the trailing brace pushed onto
the continuation. -/
theorem renderJson_obj_shape (fs : List (String × Json)) (tail : List Char) :
    renderJson (.obj fs) ++ tail
      = lbrace :: (renderFields fs ++ rbrace :: tail) := by
  rw [renderJson]
  simp [List.append_assoc]

/-- The rendering of an element list headed by an encoded ingredient
starts with an opening brace. -/
theorem renderElems_encode_cons (i : Ingredient) (xs : List Json)
    (tail : List Char) :
    ∃ t, renderElems (encodeIngredient i :: xs) ++ tail = lbrace :: t := by
  cases xs with
  | nil =>
    refine ⟨renderFields [("name", Json.str i.name),
      ("color", Json.str i.color), ("parts", Json.int i.parts)]
        ++ rbrace :: tail, ?_⟩
    rw [show renderElems [encodeIngredient i] = renderJson (encodeIngredient i)
      from by rw [renderElems]]
    rw [encodeIngredient, renderJson_obj_shape]
  | cons x xs2 =>
    refine ⟨renderFields [("name", Json.str i.name),
      ("color", Json.str i.color), ("parts", Json.int i.parts)]
        ++ rbrace :: (',' :: ' ' :: (renderElems (x :: xs2) ++ tail)), ?_⟩
    rw [show renderElems (encodeIngredient i :: x :: xs2) ++ tail
        = renderJson (encodeIngredient i)
            ++ (',' :: ' ' :: (renderElems (x :: xs2) ++ tail)) from by
      rw [renderElems]; simp [List.append_assoc]]
    rw [encodeIngredient, renderJson_obj_shape]

/-- Skipping whitespace leaves a rendered ingredient-headed element list
alone. -/
theorem skipWs_renderElems_encode (i : Ingredient) (xs : List Json)
    (tail : List Char) :
    skipWs (renderElems (encodeIngredient i :: xs) ++ tail)
      = renderElems (encodeIngredient i :: xs) ++ tail := by
  obtain ⟨t, ht⟩ := renderElems_encode_cons i xs tail
  rw [ht]
  exact skipWs_not_ws _ _ (by decide)

/-- One step of the value reader on a bracket whose body does not begin
with whitespace or a closing bracket. -/
theorem parseValue_lbrack_open (f : Nat) (cs1 : List Char)
    (hws : skipWs cs1 = cs1) (hne : ∀ r, cs1 ≠ ']' :: r) :
    parseValue (f + 1) ('[' :: cs1)
      = (parseElems f cs1).map fun p => (Json.arr p.1, p.2) := by
  rw [parseValue_lbrack, hws]
  cases cs1 with
  | nil => rfl
  | cons c cs =>
    have hc : ¬ c = ']' := by
      intro he
      exact hne cs (by rw [he])
    simp [hc]

/-- The element reader inverts the element renderer on a nonempty list of
encoded ingredients, with fuel eight plus the number of remaining
elements. -/
theorem parseElems_encodeRecipe :
    ∀ (ings : List Ingredient) (i : Ingredient) (f : Nat) (rest : List Char),
      parseElems (f + 8 + ings.length)
        (renderElems ((i :: ings).map encodeIngredient) ++ ']' :: rest)
        = some ((i :: ings).map encodeIngredient, rest)
  | [], i, f, rest => by
    simp only [List.map_cons, List.map_nil]
    rw [show renderElems [encodeIngredient i] ++ ']' :: rest
        = renderJson (encodeIngredient i) ++ ']' :: rest from by
      rw [renderElems]]
    rw [show f + 8 + ([] : List Ingredient).length = (f + 7) + 1 from by
      simp]
    rw [parseElems_succ, parseValue_encodeIngredient f i (']' :: rest)]
    simp only [skipWs_not_ws ']' rest (by decide)]
  | j :: tl, i, f, rest => by
    simp only [List.map_cons]
    rw [show renderElems (encodeIngredient i :: encodeIngredient j
          :: tl.map encodeIngredient) ++ ']' :: rest
        = renderJson (encodeIngredient i)
            ++ (',' :: ' ' :: (renderElems (encodeIngredient j
              :: tl.map encodeIngredient) ++ ']' :: rest)) from by
      rw [renderElems]; simp [List.append_assoc]]
    rw [show f + 8 + (j :: tl).length = (f + 8 + tl.length) + 1 from by
      simp only [List.length_cons]; omega]
    rw [parseElems_succ]
    rw [show f + 8 + tl.length = (f + 1 + tl.length) + 7 from by omega]
    rw [parseValue_encodeIngredient (f + 1 + tl.length) i
      (',' :: ' ' :: (renderElems (encodeIngredient j
        :: tl.map encodeIngredient) ++ ']' :: rest))]
    simp only [skipWs_not_ws ',' _ (by decide), skipWs_space,
      skipWs_renderElems_encode j (tl.map encodeIngredient) (']' :: rest)]
    rw [show (f + 1 + tl.length) + 7 = f + 8 + tl.length from by omega]
    have htail := parseElems_encodeRecipe tl j f rest
    simp only [List.map_cons] at htail
    rw [htail]
    rfl

/-- The value reader inverts the renderer on a whole encoded recipe, with
fuel nine plus the number of ingredients. -/
theorem parseValue_encodeRecipe (f : Nat) (r : List Ingredient)
    (rest : List Char) :
    parseValue (f + 9 + r.length) (renderJson (encodeRecipe r) ++ rest)
      = some (encodeRecipe r, rest) := by
  cases r with
  | nil =>
    rw [show renderJson (encodeRecipe []) ++ rest = '[' :: ']' :: rest from by
      simp [encodeRecipe, renderJson, renderElems]]
    rw [show f + 9 + ([] : List Ingredient).length = (f + 8) + 1 from by
      simp]
    rw [parseValue_lbrack]
    simp only [skipWs_not_ws ']' rest (by decide)]
    rfl
  | cons i ings =>
    rw [show renderJson (encodeRecipe (i :: ings)) ++ rest
        = '[' :: (renderElems ((i :: ings).map encodeIngredient)
            ++ ']' :: rest) from by
      rw [encodeRecipe, renderJson]; simp [List.append_assoc]]
    rw [show f + 9 + (i :: ings).length = ((f + 1) + 8 + ings.length) + 1
      from by simp only [List.length_cons]; omega]
    have hne : ∀ t, renderElems ((i :: ings).map encodeIngredient)
        ++ ']' :: rest ≠ ']' :: t := by
      intro t h
      obtain ⟨u, hu⟩ := renderElems_encode_cons i (ings.map encodeIngredient)
        (']' :: rest)
      rw [show (i :: ings).map encodeIngredient
          = encodeIngredient i :: ings.map encodeIngredient from rfl, hu]
        at h
      exact absurd (List.cons_eq_cons.mp h).1 (by decide)
    rw [parseValue_lbrack_open _ _ ?hws hne]
    · have htail := parseElems_encodeRecipe ings i (f + 1) rest
      simp only [List.map_cons] at htail
      rw [show (i :: ings).map encodeIngredient
          = encodeIngredient i :: ings.map encodeIngredient from rfl]
      rw [htail]
      rfl
    · rw [show (i :: ings).map encodeIngredient
          = encodeIngredient i :: ings.map encodeIngredient from rfl]
      exact skipWs_renderElems_encode i (ings.map encodeIngredient)
        (']' :: rest)

/-- The rendering of an encoded ingredient is nonempty. -/
theorem renderJson_encodeIngredient_pos (i : Ingredient) :
    1 ≤ (renderJson (encodeIngredient i)).length := by
  have h := renderJson_obj_shape [("name", Json.str i.name),
    ("color", Json.str i.color), ("parts", Json.int i.parts)] []
  rw [List.append_nil] at h
  rw [show encodeIngredient i = Json.obj [("name", Json.str i.name),
    ("color", Json.str i.color), ("parts", Json.int i.parts)] from rfl, h]
  simp

/-- An element list of encoded ingredients renders to at least one
character per ingredient. -/
theorem renderElems_encode_length :
    ∀ (xs : List Ingredient),
      xs.length ≤ (renderElems (xs.map encodeIngredient)).length
  | [] => by simp [renderElems]
  | [i] => by
    simp only [List.map_cons, List.map_nil, List.length_cons,
      List.length_nil]
    rw [show renderElems [encodeIngredient i]
        = renderJson (encodeIngredient i) from by rw [renderElems]]
    have := renderJson_encodeIngredient_pos i
    omega
  | i :: j :: tl => by
    simp only [List.map_cons, List.length_cons]
    rw [show renderElems (encodeIngredient i :: encodeIngredient j
          :: tl.map encodeIngredient)
        = renderJson (encodeIngredient i)
            ++ ',' :: ' ' :: renderElems (encodeIngredient j
              :: tl.map encodeIngredient) from by rw [renderElems]]
    have h1 := renderJson_encodeIngredient_pos i
    have h2 := renderElems_encode_length (j :: tl)
    simp only [List.map_cons, List.length_cons] at h2
    simp only [List.length_append, List.length_cons]
    omega

/-- The value reader inverts the renderer on a whole encoded recipe with
no trailing input. -/
theorem parseValue_encodeRecipe_nil (f : Nat) (r : List Ingredient) :
    parseValue (f + 9 + r.length) (renderJson (encodeRecipe r))
      = some (encodeRecipe r, []) := by
  have h := parseValue_encodeRecipe f r []
  rwa [List.append_nil] at h

/-- json.loads inverts json.dumps on every encoded recipe. -/
theorem loads_dumps_encodeRecipe (r : List Ingredient) :
    loads (dumps (encodeRecipe r)) = some (encodeRecipe r) := by
  have hlen : r.length + 2 ≤ (renderJson (encodeRecipe r)).length := by
    rw [show renderJson (encodeRecipe r)
        = '[' :: (renderElems (r.map encodeIngredient) ++ [']']) from by
      rw [encodeRecipe, renderJson]; simp]
    have := renderElems_encode_length r
    simp only [List.length_cons, List.length_append, List.length_nil]
    omega
  have hws : skipWs (renderJson (encodeRecipe r))
      = renderJson (encodeRecipe r) := by
    rw [show renderJson (encodeRecipe r)
        = '[' :: (renderElems (r.map encodeIngredient) ++ [']']) from by
      rw [encodeRecipe, renderJson]; simp]
    exact skipWs_not_ws _ _ (by decide)
  simp only [loads, dumps]
  rw [hws]
  rw [show (renderJson (encodeRecipe r)).length + 7
      = ((renderJson (encodeRecipe r)).length - r.length - 2) + 9 + r.length
    from by omega]
  rw [parseValue_encodeRecipe_nil]
  rfl

/-- Decoding inverts encoding on one ingredient. -/
theorem decodeIngredient_encodeIngredient (i : Ingredient) :
    decodeIngredient (encodeIngredient i) = some i := rfl

/-- Decoding inverts encoding on a list of ingredients. -/
theorem mapM_decodeIngredient (r : List Ingredient) :
    (r.map encodeIngredient).mapM decodeIngredient = some r := by
  induction r with
  | nil => rfl
  | cons i tl ih =>
    simp only [List.map_cons, List.mapM_cons, decodeIngredient_encodeIngredient,
      ih]
    rfl

/-- Decoding inverts encoding on a whole recipe structure. -/
theorem decodeRecipe_encodeRecipe (r : List Ingredient) :
    decodeRecipe (encodeRecipe r) = some r := by
  rw [show decodeRecipe (encodeRecipe r)
      = (r.map encodeIngredient).mapM decodeIngredient from by
    rw [encodeRecipe, decodeRecipe]]
  exact mapM_decodeIngredient r

/-- Claim C9: serializing a recipe structure on the write path and
deserializing it on the read path yields an equal structure: the stored
text parses back to the encoded JSON value, and decoding that value
returns the original ordered list of ingredients with name, color and
quantity intact. -/
theorem claim_C9_recipe_roundtrip (r : List Ingredient) :
    loads (dumps (encodeRecipe r)) = some (encodeRecipe r)
    ∧ (loads (dumps (encodeRecipe r))).bind decodeRecipe = some r := by
  refine ⟨loads_dumps_encodeRecipe r, ?_⟩
  rw [loads_dumps_encodeRecipe r]
  exact decodeRecipe_encodeRecipe r

/-- Claim C3: a PATCH carrying only a title changes that title, answers
200, and leaves every recipe column byte-for-byte unchanged — the patched
row keeps its recipe, every id is untouched, and rows with other ids are
untouched.  In general a PATCH applies exactly the fields present in the
partial input — an absent title leaves the title, an absent recipe leaves
the recipe bytes, a present field overwrites just that field — and leaves
every other row in place; symmetrically, a recipe-only PATCH answers 200
and leaves every title unchanged. -/
theorem claim_C3_patch_title_only (perms : List String) (s : Store) (id : Nat)
    (drink : Drink) (tt : String)
    (hp : "patch:drinks" ∈ perms) (hf : findDrink s id = some drink)
    (hn : (s.map Drink.id).Nodup) (hr : (loads drink.recipe).isSome) :
    (update_drink (.valid perms) s id ⟨some tt, none⟩).1.status = 200
    ∧ (update_drink (.valid perms) s id ⟨some tt, none⟩).2.map Drink.recipe
        = s.map Drink.recipe
    ∧ (update_drink (.valid perms) s id ⟨some tt, none⟩).2.map Drink.id
        = s.map Drink.id
    ∧ (∀ e ∈ (update_drink (.valid perms) s id ⟨some tt, none⟩).2,
        e.id = id → e.title = tt ∧ e.recipe = drink.recipe)
    ∧ (∀ e ∈ s, e.id ≠ id → e ∈ (update_drink (.valid perms) s id ⟨some tt, none⟩).2)
    ∧ (∀ data : RequestData,
        (update_drink (.valid perms) s id data).2.map Drink.id
            = s.map Drink.id
        ∧ (∀ e ∈ (update_drink (.valid perms) s id data).2, e.id = id →
            (data.title = none → e.title = drink.title)
            ∧ (∀ t2, data.title = some t2 → e.title = t2)
            ∧ (data.recipe = none → e.recipe = drink.recipe)
            ∧ (∀ rj, data.recipe = some rj → e.recipe = dumps rj))
        ∧ (∀ e ∈ s, e.id ≠ id
            → e ∈ (update_drink (.valid perms) s id data).2))
    ∧ (∀ rr : List Ingredient,
        (update_drink (.valid perms) s id
          ⟨none, some (encodeRecipe rr)⟩).1.status = 200
        ∧ (update_drink (.valid perms) s id
            ⟨none, some (encodeRecipe rr)⟩).2.map Drink.title
          = s.map Drink.title) := by
  obtain ⟨rv, hrv⟩ := Option.isSome_iff_exists.mp hr
  have hid : drink.id = id := by simpa using List.find?_some hf
  have hres : update_drink (.valid perms) s id ⟨some tt, none⟩
      = (⟨200, drinksBody [Json.obj
            [("id", .int (drink.id : Int)), ("title", .str tt), ("recipe", rv)]]⟩,
         s.map fun e => if e.id == id then { drink with title := tt } else e) := by
    simp [update_drink, verify, hp, hf, Drink.long, hrv]
  have hstore : ∀ data : RequestData, ∃ d2 : Drink,
      (update_drink (.valid perms) s id data).2
        = s.map (fun e => if e.id == id then d2 else e)
      ∧ d2.id = drink.id
      ∧ (data.title = none → d2.title = drink.title)
      ∧ (∀ t2, data.title = some t2 → d2.title = t2)
      ∧ (data.recipe = none → d2.recipe = drink.recipe)
      ∧ (∀ rj, data.recipe = some rj → d2.recipe = dumps rj) := by
    intro data
    obtain ⟨dt, dr⟩ := data
    cases dt with
    | none =>
      cases dr with
      | none =>
        refine ⟨drink, ?_, rfl, fun _ => rfl,
          fun t2 ht2 => Option.noConfusion ht2, fun _ => rfl,
          fun rj hrj => Option.noConfusion hrj⟩
        rcases hL : Drink.long drink with _ | b <;>
          simp [update_drink, verify, hp, hf, hL]
      | some rj =>
        refine ⟨{ drink with recipe := dumps rj }, ?_, rfl, fun _ => rfl,
          fun t2 ht2 => Option.noConfusion ht2,
          fun hno => Option.noConfusion hno,
          fun rj2 hrj2 => by cases hrj2; rfl⟩
        rcases hL : Drink.long { drink with recipe := dumps rj } with _ | b <;>
          simp [update_drink, verify, hp, hf, hL]
    | some t2 =>
      cases dr with
      | none =>
        refine ⟨{ drink with title := t2 }, ?_, rfl,
          fun hno => Option.noConfusion hno,
          fun t3 ht3 => by cases ht3; rfl, fun _ => rfl,
          fun rj hrj => Option.noConfusion hrj⟩
        rcases hL : Drink.long { drink with title := t2 } with _ | b <;>
          simp [update_drink, verify, hp, hf, hL]
      | some rj =>
        refine ⟨{ drink with title := t2, recipe := dumps rj }, ?_, rfl,
          fun hno => Option.noConfusion hno,
          fun t3 ht3 => by cases ht3; rfl,
          fun hno => Option.noConfusion hno,
          fun rj2 hrj2 => by cases hrj2; rfl⟩
        rcases hL : Drink.long { drink with title := t2, recipe := dumps rj }
            with _ | b <;>
          simp [update_drink, verify, hp, hf, hL]
  have hgen : ∀ data : RequestData,
      (update_drink (.valid perms) s id data).2.map Drink.id
          = s.map Drink.id
      ∧ (∀ e ∈ (update_drink (.valid perms) s id data).2, e.id = id →
          (data.title = none → e.title = drink.title)
          ∧ (∀ t2, data.title = some t2 → e.title = t2)
          ∧ (data.recipe = none → e.recipe = drink.recipe)
          ∧ (∀ rj, data.recipe = some rj → e.recipe = dumps rj))
      ∧ (∀ e ∈ s, e.id ≠ id
          → e ∈ (update_drink (.valid perms) s id data).2) := by
    intro data
    obtain ⟨d2, hst, hd2id, ht_none, ht_some, hr_none, hr_some⟩ := hstore data
    refine ⟨?_, ?_, ?_⟩
    · rw [hst, List.map_map]
      refine List.map_congr_left fun e he => ?_
      by_cases h : e.id = id
      · simp [Function.comp, h, hd2id, hid]
      · simp [Function.comp, h]
    · intro e he heid
      rw [hst] at he
      rcases List.mem_map.mp he with ⟨x, hx, rfl⟩
      by_cases h : x.id = id
      · have hx2 : (if x.id == id then d2 else x) = d2 := by simp [h]
        rw [hx2]
        exact ⟨ht_none, ht_some, hr_none, hr_some⟩
      · simp [h] at heid
    · intro e he hne
      rw [hst]
      exact List.mem_map.mpr ⟨e, he, by simp [hne]⟩
  have hrec : ∀ rr : List Ingredient,
      (update_drink (.valid perms) s id
        ⟨none, some (encodeRecipe rr)⟩).1.status = 200
      ∧ (update_drink (.valid perms) s id
          ⟨none, some (encodeRecipe rr)⟩).2.map Drink.title
        = s.map Drink.title := by
    intro rr
    have h200 : update_drink (.valid perms) s id ⟨none, some (encodeRecipe rr)⟩
        = (⟨200, drinksBody [Json.obj
              [("id", .int (drink.id : Int)), ("title", .str drink.title),
               ("recipe", encodeRecipe rr)]]⟩,
           s.map fun e => if e.id == id
             then { drink with recipe := dumps (encodeRecipe rr) } else e) := by
      simp [update_drink, verify, hp, hf, Drink.long,
        loads_dumps_encodeRecipe rr]
    rw [h200]
    refine ⟨rfl, ?_⟩
    rw [List.map_map]
    refine List.map_congr_left fun e he => ?_
    by_cases h : e.id = id
    · have hed : e = drink := find_unique_by_id s id drink hf hn e he h
      simp [Function.comp, h, hed, hid]
    · simp [Function.comp, h]
  rw [hres]
  refine ⟨rfl, ?_, ?_, ?_, ?_, hgen, hrec⟩
  · rw [List.map_map]
    refine List.map_congr_left fun e he => ?_
    by_cases h : e.id = id
    · have hed : e = drink := find_unique_by_id s id drink hf hn e he h
      simp [Function.comp, h, hed, hid]
    · simp [Function.comp, h]
  · rw [List.map_map]
    refine List.map_congr_left fun e he => ?_
    by_cases h : e.id = id
    · simp [Function.comp, h, hid]
    · simp [Function.comp, h]
  · intro e he heid
    rcases List.mem_map.mp he with ⟨x, hx, rfl⟩
    by_cases h : x.id = id
    · have hxd : x = drink := find_unique_by_id s id drink hf hn x hx h
      simp [h]
    · simp [h] at heid
  · intro e he hne
    exact List.mem_map.mpr ⟨e, he, by simp [hne]⟩

/-- Witness for claim C3 on a one-row store. -/
theorem claim_C3_witness :
    (update_drink (.valid ["patch:drinks"]) [⟨1, "Water", "[]"⟩] 1
        ⟨some "Tea", none⟩).1.status = 200
    ∧ (update_drink (.valid ["patch:drinks"]) [⟨1, "Water", "[]"⟩] 1
        ⟨some "Tea", none⟩).2.map Drink.recipe = ["[]"] :=
  ⟨(claim_C3_patch_title_only ["patch:drinks"] [⟨1, "Water", "[]"⟩] 1
      ⟨1, "Water", "[]"⟩ "Tea" (by simp) rfl (by simp) (by decide)).1,
   (claim_C3_patch_title_only ["patch:drinks"] [⟨1, "Water", "[]"⟩] 1
      ⟨1, "Water", "[]"⟩ "Tea" (by simp) rfl (by simp) (by decide)).2.1⟩

end CoffeeShop
